import Mathlib

/-!
A shallow embedding of the `compar` parser-combinator library
(`src/parser.ts`) and its arithmetic-expression grammar (`src/math.ts`),
together with theorems settling the specification's claims about them.

Modelling conventions:
* JavaScript strings are modelled as `List Char` (the parser only ever
  inspects the first character and takes `slice(1)`); `makeInput` accepts a
  Lean `String` and stores its character list, matching the TypeScript
  `makeInput(text: string)` entry point.
* Error messages are Lean `String`s built with the same concatenations the
  TypeScript template literals perform.
* The unboundedly recursive combinators (`many`/`some`, `chainLeft`, and the
  mutually recursive grammar rules `lazyExpr`/`lazyTerm`/`lazyFactor`) are
  embedded with an explicit fuel parameter; the wrappers supply
  `text.length + 1` units of fuel, which is sufficient whenever every
  iteration consumes at least one character (the situation in all claims).
  Fuel exhaustion yields a designated "Out of fuel" failure and models the
  source's nontermination on zero-consumption repetition.
-/

/-- Source-line/column pair (`Position` in `src/parser.ts`). -/
structure Position where
  line : Nat
  column : Nat
deriving DecidableEq, Repr

/-- Parse state: current position plus remaining input (`State`). -/
structure State where
  position : Position
  text : List Char
deriving DecidableEq, Repr

/-- Result of running a parser: the tagged union `ParserError | ParserResult<T>`
from `src/parser.ts`; `error` carries the failure position and message,
`ok` the produced value and the state after consumption. -/
inductive Result (α : Type) where
  | error (position : Position) (message : String)
  | ok (value : α) (state : State)
deriving DecidableEq, Repr

/-- `isError` discriminant of the TypeScript result union. -/
def Result.isError {α : Type} : Result α → Bool
  | .error _ _ => true
  | .ok _ _ => false

/-- `makeInput`: initial state at line 1, column 1. -/
def makeInput (text : String) : State :=
  { position := { line := 1, column := 1 }, text := text.data }

/-- `getCharacterFromInput`: `null` on empty input, otherwise the first
character and the state advanced by the newline rule. -/
def getCharacterFromInput (input : State) : Option (Char × State) :=
  match input.text with
  | [] => none
  | first :: rest =>
    if first = '\n' then
      some (first, { position := { line := input.position.line + 1, column := 1 }, text := rest })
    else
      some (first, { position := { line := input.position.line, column := input.position.column + 1 }, text := rest })

/-- A parser wraps a function from input state to result (`class Parser<A>`,
field `parse`). -/
structure Parser (α : Type) where
  parse : State → Result α

/-- `Lazy<T>`: a zero-argument thunk. -/
def Lazy (α : Type) : Type := Unit → α

/-- `Parser.EMPTY_ERRROR` (sic): the constant error used by the variadic
choice combinators, anchored at the fixed position line 1, column 1. -/
def Parser.EMPTY_ERRROR {α : Type} : Result α :=
  .error { line := 1, column := 1 } "Empty parser"

/-- `bind`: run `this`; on success feed the value to `f` and run the produced
parser on the advanced state; on failure propagate the failure. -/
def Parser.bind {α β : Type} (p : Parser α) (f : α → Parser β) : Parser β :=
  ⟨fun input =>
    match p.parse input with
    | .error pos msg => .error pos msg
    | .ok value rest => (f value).parse rest⟩

/-- `parseIf`: keep a successful value only if the predicate holds; on
underlying failure the message is rewritten to the end-of-input wording, on
predicate failure the error is anchored at the input position where the
parse began. -/
def Parser.parseIf {α : Type} [ToString α] (p : Parser α) (predicate : α → Bool) (description : String) : Parser α :=
  ⟨fun input =>
    match p.parse input with
    | .error pos _ => .error pos ("Expected " ++ description ++ ", but reach the end of input")
    | .ok value rest =>
      if predicate value then .ok value rest
      else .error input.position ("Expected " ++ description ++ ", but got " ++ toString value)⟩

/-- `pure`: succeed with `a`, consuming nothing. -/
def Parser.pure {α : Type} (a : α) : Parser α :=
  ⟨fun input => .ok a input⟩

/-- `fmap`: transform a successful value, preserving the state. -/
def Parser.fmap {α β : Type} (p : Parser α) (f : α → β) : Parser β :=
  ⟨fun input =>
    match p.parse input with
    | .error pos msg => .error pos msg
    | .ok value rest => .ok (f value) rest⟩

/-- `apply`: run the function parser first, then `this`, combining. -/
def Parser.apply {α β : Type} (p : Parser α) (fp : Parser (α → β)) : Parser β :=
  ⟨fun input =>
    match fp.parse input with
    | .error pos msg => .error pos msg
    | .ok f rest => (p.fmap f).parse rest⟩

/-- `empty`: always fail at the current position. -/
def Parser.empty {α : Type} : Parser α :=
  ⟨fun input => .error input.position "Empty parser"⟩

/-- `choice`: run `p1` on the original state; on failure run `p2` on the same
original state. -/
def Parser.choice {α : Type} (p1 p2 : Parser α) : Parser α :=
  ⟨fun input =>
    match p1.parse input with
    | .error _ _ => p2.parse input
    | .ok value rest => .ok value rest⟩

/-- `lazyChoice`: `choice` over thunks, forced at parse time. -/
def Parser.lazyChoice {α : Type} (p1 p2 : Lazy (Parser α)) : Parser α :=
  ⟨fun input =>
    match (p1 ()).parse input with
    | .error _ _ => (p2 ()).parse input
    | .ok value rest => .ok value rest⟩

/-- `multipleChoice`: try each parser left to right, returning the first
success; the last failure if all fail; `EMPTY_ERRROR` on an empty list. -/
def Parser.multipleChoice {α : Type} : List (Parser α) → Parser α
  | [] => ⟨fun _ => Parser.EMPTY_ERRROR⟩
  | [p] => ⟨fun input => p.parse input⟩
  | p :: q :: ps =>
    ⟨fun input =>
      match p.parse input with
      | .error _ _ => (Parser.multipleChoice (q :: ps)).parse input
      | .ok value rest => .ok value rest⟩

/-- `multipleLazyChoice`: `multipleChoice` over thunks. -/
def Parser.multipleLazyChoice {α : Type} : List (Lazy (Parser α)) → Parser α
  | [] => ⟨fun _ => Parser.EMPTY_ERRROR⟩
  | [p] => ⟨fun input => (p ()).parse input⟩
  | p :: q :: ps =>
    ⟨fun input =>
      match (p ()).parse input with
      | .error _ _ => (Parser.multipleLazyChoice (q :: ps)).parse input
      | .ok value rest => .ok value rest⟩

/-- Fuel-indexed unrolling of `many(p) = choice(some(p), pure([]))` with
`some(p) = p.bind(a => many(p).bind(as => pure([a, ...as])))`; one unit of
fuel per repetition. -/
def Parser.manyFuel {α : Type} (p : Parser α) : Nat → Parser (List α)
  | 0 => ⟨fun input => .error input.position "Out of fuel"⟩
  | n + 1 =>
    Parser.choice
      (p.bind fun a => (Parser.manyFuel p n).bind fun as => Parser.pure (a :: as))
      (Parser.pure [])

/-- `many`: zero or more repetitions; `text.length + 1` units of fuel cover
every consumption-progressing repetition. -/
def Parser.many {α : Type} (p : Parser α) : Parser (List α) :=
  ⟨fun input => (Parser.manyFuel p (input.text.length + 1)).parse input⟩

/-- `some`: one or more repetitions. -/
def Parser.some {α : Type} (p : Parser α) : Parser (List α) :=
  p.bind fun a => (Parser.many p).bind fun as => Parser.pure (a :: as)

/-- `sepBy`: possibly-empty separated list. -/
def Parser.sepBySome {α σ : Type} (p : Parser α) (sep : Parser σ) : Parser (List α) :=
  p.bind fun a => (Parser.many (sep.bind fun _ => p)).bind fun as => Parser.pure (a :: as)

/-- `sepBy`: `choice(sepBySome(p, sep), pure([]))`. -/
def Parser.sepBy {α σ : Type} (p : Parser α) (sep : Parser σ) : Parser (List α) :=
  Parser.choice (Parser.sepBySome p sep) (Parser.pure [])

/-- Fuel-indexed unrolling of the inner `rest` loop of `chainLeft`:
`rest a = choice(op.bind(f => p.bind(b => rest(f(a)(b)))), pure(a))`. -/
def Parser.chainRestFuel {α : Type} (p : Parser α) (op : Parser (α → α → α)) : Nat → α → Parser α
  | 0, _ => ⟨fun input => .error input.position "Out of fuel"⟩
  | n + 1, a =>
    Parser.choice
      (op.bind fun f => p.bind fun b => Parser.chainRestFuel p op n (f a b))
      (Parser.pure a)

/-- `chainLeft`: one `p`, then zero or more `(op, p)` pairs folded left. -/
def Parser.chainLeft {α : Type} (p : Parser α) (op : Parser (α → α → α)) : Parser α :=
  p.bind fun a => ⟨fun input => (Parser.chainRestFuel p op (input.text.length + 1) a).parse input⟩

/-- `item`: consume one character, or fail on empty input. -/
def item : Parser Char :=
  ⟨fun input =>
    match getCharacterFromInput input with
    | none => .error input.position "Unexpected end of input"
    | some (character, rest) => .ok character rest⟩

/-- `WHITE_SPACES` character set. -/
def WHITE_SPACES : List Char := [' ', '\n', '\t']

/-- `digit`. -/
def digit : Parser Char :=
  item.parseIf (fun c => decide ('0' ≤ c) && decide (c ≤ '9')) "a digit"

/-- `lower`. -/
def lower : Parser Char :=
  item.parseIf (fun c => decide ('a' ≤ c) && decide (c ≤ 'z')) "a lower case letter"

/-- `upper`. -/
def upper : Parser Char :=
  item.parseIf (fun c => decide ('A' ≤ c) && decide (c ≤ 'Z')) "an upper case letter"

/-- `whitespace`. -/
def whitespace : Parser Char :=
  item.parseIf (fun c => WHITE_SPACES.contains c) "a whitespace"

/-- `letter`. -/
def letter : Parser Char := Parser.choice lower upper

/-- `alphanum`. -/
def alphanum : Parser Char := Parser.choice letter digit

/-- `whitespaces`. -/
def whitespaces : Parser (List Char) := Parser.many whitespace

/-- `token(p)`: run `p`, then discard trailing whitespace. -/
def token {α : Type} (p : Parser α) : Parser α :=
  p.bind fun a => whitespaces.bind fun _ => Parser.pure a

/-- `char(c)`: match exactly `c`; the description is `c` itself. -/
def char (c : Char) : Parser Char :=
  item.parseIf (fun character => character = c) (toString c)

/-- `str(s)`: match the literal character sequence `s` via recursive `bind`. -/
def str : List Char → Parser (List Char)
  | [] => Parser.pure []
  | c :: cs => (char c).bind fun c' => (str cs).bind fun cs' => Parser.pure (c' :: cs')

/-- `symbol(s) = token(str(s))`. -/
def symbol (s : List Char) : Parser (List Char) := token (str s)

/-! ### The arithmetic-expression grammar (`src/math.ts`) -/

/-- The four binary operators of the math grammar. -/
inductive Operator where
  | plus
  | minus
  | times
  | divide
deriving DecidableEq, Repr

/-- The literal character each operator is written as. -/
def opChar : Operator → Char
  | .plus => '+'
  | .minus => '-'
  | .times => '*'
  | .divide => '/'

/-- Expression trees produced by the math grammar. JavaScript numbers are
modelled as exact rationals; on the integer-only inputs the claims exercise
the two agree. -/
inductive Expression where
  | num (value : ℚ)
  | binaryExpression (operator : Operator) (left : Expression) (right : Expression)
deriving DecidableEq, Repr

/-- The `Operation` table mapping each operator to its arithmetic function. -/
def Operation : Operator → ℚ → ℚ → ℚ
  | .plus => fun a b => a + b
  | .minus => fun a b => a - b
  | .times => fun a b => a * b
  | .divide => fun a b => a / b

/-- Modelled from the spec: the `evaluate(expression) -> number` function of
`src/math.ts` is not part of the provided sources; per the spec it "walks the
produced expression tree recursively, applying `+ - * /` per node" using the
`Operation` table. -/
def evaluate : Expression → ℚ
  | .num value => value
  | .binaryExpression op left right => Operation op (evaluate left) (evaluate right)

/-- `makeExpression(op)`: curried constructor of a `binaryExpression` node. -/
def makeExpression (op : Operator) : Expression → Expression → Expression :=
  fun left right => .binaryExpression op left right

/-- `operator(op) = symbol(op).fmap(_ => makeExpression(op))`. -/
def operator (op : Operator) : Parser (Expression → Expression → Expression) :=
  (symbol [opChar op]).fmap fun _ => makeExpression op

/-- `plusMinus`. -/
def plusMinus : Parser (Expression → Expression → Expression) :=
  Parser.choice (operator .plus) (operator .minus)

/-- `mulDiv`. -/
def mulDiv : Parser (Expression → Expression → Expression) :=
  Parser.choice (operator .times) (operator .divide)

/-- `intString = Parser.some(digit)`. -/
def intString : Parser (List Char) := Parser.some digit

/-- `realString`: digits, a dot, digits. -/
def realString : Parser (List Char) :=
  intString.bind fun ds => (char '.').bind fun _ => intString.bind fun rs =>
    Parser.pure (ds ++ '.' :: rs)

/-- The number a digit list denotes. -/
def digitsToNat (ds : List Char) : Nat :=
  ds.foldl (fun n c => 10 * n + (c.toNat - '0'.toNat)) 0

/-- Modelled `Number(s.join(''))` on the strings this grammar produces
(digits, optionally a dot and more digits), read as an exact rational. -/
def charsToRat (cs : List Char) : ℚ :=
  match cs.dropWhile (fun c => c ≠ '.') with
  | [] => (digitsToNat cs : ℚ)
  | _ :: frac =>
    (digitsToNat (cs.takeWhile (fun c => c ≠ '.')) : ℚ)
      + (digitsToNat frac : ℚ) / ((10 : ℚ) ^ frac.length)

/-- `numeric`: a token-level number literal wrapped in a `number` node. -/
def numeric : Parser Expression :=
  ((token (Parser.choice realString intString)).bind fun s =>
    Parser.pure (charsToRat s)).fmap Expression.num

/-- Fuel-indexed `lazyFactor`: `numeric`, or a parenthesised expression.
The thunked recursion `lazyFactor → lazyExpr → lazyTerm → lazyFactor` of the
source is broken on fuel, with `lazyExpr`/`lazyTerm` inlined at the recursive
occurrence (`chainLeft(chainLeft(factor, mulDiv), plusMinus)`); each unit of
fuel spans one level of parenthesis nesting, which consumes a `(`. -/
def lazyFactor : Nat → Parser Expression
  | 0 => ⟨fun input => .error input.position "Out of fuel"⟩
  | n + 1 =>
    Parser.choice numeric
      ((symbol ['(']).bind fun _ =>
        (Parser.chainLeft (Parser.chainLeft (lazyFactor n) mulDiv) plusMinus).bind fun e =>
        (symbol [')']).bind fun _ => Parser.pure e)

/-- Fuel-indexed `lazyTerm`: left-chained factors under `*` and `/`. -/
def lazyTerm (n : Nat) : Parser Expression :=
  Parser.chainLeft (lazyFactor n) mulDiv

/-- Fuel-indexed `lazyExpr`: left-chained terms under `+` and `-`. -/
def lazyExpr (n : Nat) : Parser Expression :=
  Parser.chainLeft (lazyTerm n) plusMinus

/-- `math.expr = lazyExpr()`: the grammar's entry point, with enough fuel for
the whole input. -/
def expr : Parser Expression :=
  ⟨fun input => (lazyExpr (input.text.length + 1)).parse input⟩

/-! ### Helper notions for stating position advancement -/

/-- The position after consuming one character, per the newline rule of
`getCharacterFromInput`. -/
def nextPosition (pos : Position) (c : Char) : Position :=
  if c = '\n' then ⟨pos.line + 1, 1⟩ else ⟨pos.line, pos.column + 1⟩

/-- The position after consuming a sequence of characters. -/
def advancePosition (pos : Position) (cs : List Char) : Position :=
  cs.foldl nextPosition pos

/-! ### Claims -/

/-- C1: `choice(p1, p2)` runs `p1` on the original state; a success of `p1`
is returned as is (so `p2` cannot influence the result), and when `p1` fails
the result is exactly `p2` run on the same original state — in particular,
when `p2` also fails the returned failure is `p2`'s, not `p1`'s. -/
theorem choice_ordered {α : Type} (p1 p2 : Parser α) (s : State) :
    (∀ v r, p1.parse s = .ok v r → (Parser.choice p1 p2).parse s = .ok v r) ∧
    ((p1.parse s).isError = true → (Parser.choice p1 p2).parse s = p2.parse s) := by
  constructor
  · intro v r h
    simp [Parser.choice, h]
  · intro h
    cases hp : p1.parse s with
    | error pos msg => simp [Parser.choice, hp]
    | ok v r => rw [hp] at h; simp [Result.isError] at h

theorem choice_ordered_witness :
    (Parser.choice (char 'a') (char 'b')).parse (makeInput "b") = (char 'b').parse (makeInput "b") :=
  (choice_ordered (char 'a') (char 'b') (makeInput "b")).2 (by decide)

/-- C3: the monad laws hold observably: `pure(a).bind(f)` parses like `f(a)`,
`p.bind(pure)` parses like `p`, and `bind` is associative. -/
theorem parser_monad_laws {α β γ : Type} (a : α) (f : α → Parser β) (g : β → Parser γ)
    (p : Parser α) (s : State) :
    ((Parser.pure a).bind f).parse s = (f a).parse s ∧
    (p.bind Parser.pure).parse s = p.parse s ∧
    ((p.bind f).bind g).parse s = (p.bind fun x => (f x).bind g).parse s := by
  refine ⟨rfl, ?_, ?_⟩
  · cases hp : p.parse s <;> simp [Parser.bind, Parser.pure, hp]
  · cases hp : p.parse s <;> simp [Parser.bind, hp]

/-- C9: on an empty alternative list, `multipleChoice` and
`multipleLazyChoice` fail with message "Empty parser" at the fixed constant
position line 1, column 1, whatever the state's own position — unlike
`empty`, which is anchored at the state's current position. -/
theorem multipleChoice_empty_error {α : Type} (s : State) :
    (Parser.multipleChoice ([] : List (Parser α))).parse s = .error ⟨1, 1⟩ "Empty parser" ∧
    (Parser.multipleLazyChoice ([] : List (Lazy (Parser α)))).parse s = .error ⟨1, 1⟩ "Empty parser" ∧
    (Parser.empty : Parser α).parse s = .error s.position "Empty parser" :=
  ⟨rfl, rfl, rfl⟩

/-- C7: `many(p)` never fails: on every state it returns a success; in
particular `many(digit)` on `"123a"` succeeds with `['1','2','3']`, consuming
exactly `"123"` and leaving `"a"`. -/
theorem many_never_fails {α : Type} (p : Parser α) (s : State) :
    ((Parser.many p).parse s).isError = false ∧
    (Parser.many digit).parse (makeInput "123a") =
      .ok ['1', '2', '3'] ⟨⟨1, 4⟩, ['a']⟩ := by
  constructor
  · show ((Parser.manyFuel p (s.text.length + 1)).parse s).isError = false
    simp only [Parser.manyFuel, Parser.choice]
    cases h : ((p.bind fun a => (Parser.manyFuel p s.text.length).bind fun as =>
        Parser.pure (a :: as)).parse s) with
    | error pos msg => simp [h, Parser.pure, Result.isError]
    | ok v r => simp [h, Result.isError]
  · decide

/-- C5: when the underlying parser succeeds with a value the predicate
rejects, `parseIf` fails at the position where the original successful parse
began, with a message embedding the description; when the underlying parser
fails (as `item` does at end of input), the message states the description
was expected but input ended. -/
theorem parseIf_predicate_failure {α : Type} [ToString α] (p : Parser α)
    (predicate : α → Bool) (description : String) (s : State) :
    (∀ v r, p.parse s = .ok v r → predicate v = false →
      (p.parseIf predicate description).parse s =
        .error s.position ("Expected " ++ description ++ ", but got " ++ toString v)) ∧
    (∀ pos msg, p.parse s = .error pos msg →
      (p.parseIf predicate description).parse s =
        .error pos ("Expected " ++ description ++ ", but reach the end of input")) := by
  constructor
  · intro v r h hpred
    simp [Parser.parseIf, h, hpred]
  · intro pos msg h
    simp [Parser.parseIf, h]

theorem parseIf_predicate_failure_witness :
    (item.parseIf (fun c => decide ('0' ≤ c) && decide (c ≤ '9')) "a digit").parse (makeInput "a") =
      .error ⟨1, 1⟩ "Expected a digit, but got a" :=
  (parseIf_predicate_failure item _ "a digit" (makeInput "a")).1 'a' ⟨⟨1, 2⟩, []⟩ rfl rfl

/-- C10: whenever the underlying parser fails — for any reason, not only end
of input — `parseIf` keeps the failure's position but unconditionally
rewrites its message to the end-of-input wording, never propagating the
original message. -/
theorem parseIf_error_rewrite {α : Type} [ToString α] (p : Parser α)
    (predicate : α → Bool) (description : String) (s : State) (pos : Position) (msg : String) :
    p.parse s = .error pos msg →
    (p.parseIf predicate description).parse s =
      .error pos ("Expected " ++ description ++ ", but reach the end of input") := by
  intro h
  simp [Parser.parseIf, h]

theorem parseIf_error_rewrite_witness :
    ((char 'a').parseIf (fun _ => true) "something").parse (makeInput "b") =
      .error ⟨1, 1⟩ "Expected something, but reach the end of input" :=
  parseIf_error_rewrite (char 'a') (fun _ => true) "something" (makeInput "b") ⟨1, 1⟩
    "Expected a, but got b" rfl

/-- C4 counterexample: on empty input `item` does not fail with the message
"unexpected end of input" — the code's message is capitalized,
"Unexpected end of input". -/
theorem item_message_counterexample :
    item.parse (makeInput "") ≠ .error ⟨1, 1⟩ "unexpected end of input" ∧
    item.parse (makeInput "") = .error ⟨1, 1⟩ "Unexpected end of input" := by
  constructor
  · decide
  · rfl

/-- C4 (amended): `item` fails with the message "Unexpected end of input" at
the current position when the remaining text is empty; otherwise it succeeds
with exactly the first remaining character, the position following the
newline rule; `item` on `makeInput("a")` succeeds with `'a'` at column 2. -/
theorem item_spec (s : State) :
    (s.text = [] → item.parse s = .error s.position "Unexpected end of input") ∧
    (∀ c rest, s.text = c :: rest →
      item.parse s = .ok c ⟨nextPosition s.position c, rest⟩) ∧
    item.parse (makeInput "a") = .ok 'a' ⟨⟨1, 2⟩, []⟩ := by
  obtain ⟨pos, text⟩ := s
  refine ⟨?_, ?_, by decide⟩
  · intro h
    simp only at h
    subst h
    rfl
  · intro c rest h
    simp only at h
    subst h
    by_cases hc : c = '\n' <;>
      simp [item, getCharacterFromInput, nextPosition, hc]

theorem item_spec_witness :
    item.parse (makeInput "\n") = .ok '\n' ⟨⟨2, 1⟩, []⟩ :=
  (item_spec (makeInput "\n")).2.1 '\n' [] rfl

/-- C6 counterexample: `empty` is not a right identity for `choice` up to
result equality — when `p` fails, `choice(p, empty)` returns `empty`'s
failure, not `p`'s. -/
theorem choice_empty_counterexample :
    (Parser.choice (char 'b') Parser.empty).parse (makeInput "a") ≠
      (char 'b').parse (makeInput "a") := by
  decide

/-- C6 (amended): `choice(empty, p)` parses exactly like `p` on every state;
`choice(p, empty)` returns `p`'s result whenever `p` succeeds, but when `p`
fails it fails with `empty`'s error — message "Empty parser" anchored at the
state's current position — rather than `p`'s own failure; and `empty` itself
always fails at the current position with message "Empty parser". -/
theorem empty_choice_identity {α : Type} (p : Parser α) (s : State) :
    (Parser.choice Parser.empty p).parse s = p.parse s ∧
    (∀ v r, p.parse s = .ok v r → (Parser.choice p Parser.empty).parse s = .ok v r) ∧
    ((p.parse s).isError = true →
      (Parser.choice p Parser.empty).parse s = .error s.position "Empty parser") ∧
    (Parser.empty : Parser α).parse s = .error s.position "Empty parser" := by
  refine ⟨rfl, ?_, ?_, rfl⟩
  · intro v r h
    simp [Parser.choice, h]
  · intro h
    cases hp : p.parse s with
    | error pos msg => simp [Parser.choice, Parser.empty, hp]
    | ok v r => rw [hp] at h; simp [Result.isError] at h

theorem empty_choice_identity_witness :
    (Parser.choice (char 'a') Parser.empty).parse (makeInput "a") = .ok 'a' ⟨⟨1, 2⟩, []⟩ :=
  (empty_choice_identity (char 'a') (makeInput "a")).2.1 'a' ⟨⟨1, 2⟩, []⟩ rfl

/-- C2: parsing `"4 - 2 + 3"` with the arithmetic expression parser succeeds,
consuming the whole input, and produces the left-associative tree
`(4 - 2) + 3` — not `4 - (2 + 3)` — whose evaluation per the `Operation`
table yields 5. -/
theorem chainLeft_left_assoc :
    expr.parse (makeInput "4 - 2 + 3") =
      .ok (Expression.binaryExpression .plus
            (Expression.binaryExpression .minus (Expression.num 4) (Expression.num 2))
            (Expression.num 3))
          ⟨⟨1, 10⟩, []⟩ ∧
    evaluate (Expression.binaryExpression .plus
            (Expression.binaryExpression .minus (Expression.num 4) (Expression.num 2))
            (Expression.num 3)) = 5 ∧
    Expression.binaryExpression .plus
        (Expression.binaryExpression .minus (Expression.num 4) (Expression.num 2))
        (Expression.num 3) ≠
      Expression.binaryExpression .minus (Expression.num 4)
        (Expression.binaryExpression .plus (Expression.num 2) (Expression.num 3)) := by
  refine ⟨by decide, ?_, by decide⟩
  simp only [evaluate, Operation]
  norm_num

/-! ### Lemmas about `char` and `str` -/

lemma char_ok (c : Char) (pos : Position) (rest : List Char) :
    (char c).parse ⟨pos, c :: rest⟩ = .ok c ⟨nextPosition pos c, rest⟩ := by
  by_cases hc : c = '\n' <;>
    simp [char, Parser.parseIf, item, getCharacterFromInput, nextPosition, hc]

lemma char_mismatch (c d : Char) (h : d ≠ c) (pos : Position) (rest : List Char) :
    (char c).parse ⟨pos, d :: rest⟩ =
      .error pos ("Expected " ++ toString c ++ ", but got " ++ toString d) := by
  by_cases hd : d = '\n'
  · subst hd
    simp [char, Parser.parseIf, item, getCharacterFromInput, h]
  · simp [char, Parser.parseIf, item, getCharacterFromInput, hd, h]

lemma char_eoi (c : Char) (pos : Position) :
    (char c).parse ⟨pos, []⟩ =
      .error pos ("Expected " ++ toString c ++ ", but reach the end of input") := rfl

lemma char_ok_inv (c : Char) (s : State) (v : Char) (r : State)
    (h : (char c).parse s = .ok v r) :
    v = c ∧ s.text = c :: r.text := by
  obtain ⟨pos, text⟩ := s
  cases text with
  | nil => rw [char_eoi] at h; exact absurd h (by simp)
  | cons d rest =>
    by_cases hd : d = c
    · subst hd
      rw [char_ok] at h
      injection h with h1 h2
      subst h1
      subst h2
      exact ⟨rfl, rfl⟩
    · rw [char_mismatch c d hd] at h
      exact absurd h (by simp)

lemma str_complete (cs : List Char) (pos : Position) (rest : List Char) :
    (str cs).parse ⟨pos, cs ++ rest⟩ = .ok cs ⟨advancePosition pos cs, rest⟩ := by
  induction cs generalizing pos with
  | nil => rfl
  | cons c cs ih =>
    have hstep : ((c :: cs) ++ rest) = c :: (cs ++ rest) := rfl
    simp only [str, Parser.bind, Parser.pure, hstep, char_ok, ih,
      advancePosition, List.foldl_cons]

lemma str_sound (cs : List Char) (s : State) (v : List Char) (r : State)
    (h : (str cs).parse s = .ok v r) : ∃ rest, s.text = cs ++ rest := by
  induction cs generalizing s v r with
  | nil => exact ⟨s.text, rfl⟩
  | cons c cs ih =>
    simp only [str, Parser.bind] at h
    cases hc : (char c).parse s with
    | error pos msg => rw [hc] at h; simp at h
    | ok c' r1 =>
      rw [hc] at h
      simp only at h
      obtain ⟨_, htext⟩ := char_ok_inv c s c' r1 hc
      cases hs : (str cs).parse r1 with
      | error pos msg => rw [hs] at h; simp at h
      | ok vs rs =>
        obtain ⟨rest2, hrest⟩ := ih r1 vs rs hs
        exact ⟨rest2, by rw [htext, hrest, List.cons_append]⟩

lemma str_mismatch (pre : List Char) (c : Char) (cs : List Char) (d : Char)
    (rest : List Char) (pos : Position) (h : d ≠ c) :
    (str (pre ++ c :: cs)).parse ⟨pos, pre ++ d :: rest⟩ =
      .error (advancePosition pos pre)
        ("Expected " ++ toString c ++ ", but got " ++ toString d) := by
  induction pre generalizing pos with
  | nil =>
    simp only [List.nil_append, str, Parser.bind, advancePosition, List.foldl_nil,
      char_mismatch c d h]
  | cons p pre ih =>
    have hstep : ((p :: pre) ++ d :: rest) = p :: (pre ++ d :: rest) := rfl
    have hstep2 : ((p :: pre) ++ c :: cs) = p :: (pre ++ c :: cs) := rfl
    simp only [hstep, hstep2, str, Parser.bind, char_ok, List.append_eq, ih,
      advancePosition, List.foldl_cons]

/-- C8: `str(s)` succeeds exactly when the remaining input begins with `s`,
returning `s` and consuming exactly those characters (position advanced per
the newline rule); `str("")` always succeeds consuming nothing; and when the
input matches a proper prefix of `s` and then diverges, the failure is
anchored at the position of the first mismatching character, not where
`str(s)` started. -/
theorem str_spec (cs : List Char) (s : State) :
    (∀ rest, s.text = cs ++ rest →
      (str cs).parse s = .ok cs ⟨advancePosition s.position cs, rest⟩) ∧
    (∀ v r, (str cs).parse s = .ok v r → ∃ rest, s.text = cs ++ rest) ∧
    (str []).parse s = .ok [] s ∧
    (∀ pre c' cs2 d rest, cs = pre ++ c' :: cs2 → s.text = pre ++ d :: rest → d ≠ c' →
      (str cs).parse s =
        .error (advancePosition s.position pre)
          ("Expected " ++ toString c' ++ ", but got " ++ toString d)) := by
  obtain ⟨pos, text⟩ := s
  refine ⟨?_, ?_, rfl, ?_⟩
  · intro rest h
    simp only at h
    subst h
    exact str_complete cs pos rest
  · intro v r h
    exact str_sound cs ⟨pos, text⟩ v r h
  · intro pre c' cs2 d rest hcs htext hne
    simp only at htext
    subst htext
    subst hcs
    exact str_mismatch pre c' cs2 d rest pos hne

theorem str_spec_witness :
    (str ['a', 'b']).parse (makeInput "abc") = .ok ['a', 'b'] ⟨⟨1, 3⟩, ['c']⟩ :=
  (str_spec ['a', 'b'] (makeInput "abc")).1 ['c'] rfl
